import Mathlib

/-!
Verification of the jest entity/component store.

The embedding mirrors the Rust source:
* `Dyn` models a `Box<dyn Any + Send>`: an opaque payload together with the
  `TypeId` tag of the concrete type it was boxed at.
* `Entity` models `Entity` from `src/entities/mod.rs`: a map from `TypeId` to
  type-erased component values (`HashMap<TypeId, Box<dyn Any + Send>>` is
  modelled as a function `TypeId → Option Dyn`).  The `_world : Arc<World>`
  field is a pure keep-alive reference with no observable behaviour and is
  omitted.
* `EntityBuilder` models `src/entities/builder.rs`.
* `World` models `src/world.rs`.  Its arena field has type
  `slotmap::HopSlotMap<EntityId, RwLock<Entity>>`, an external crate whose
  source is not part of this repository, so the slot arena itself is modelled
  from the spec (generation-stamped slots, see the doc comment on `World`).
* Lock acquisition in `World::insert/remove/get/get_mut` is modelled by the
  per-operation lock footprint `lockFootprint`, read off the guard
  acquisitions in `src/world.rs`.

TypeIds and component payloads are modelled as natural numbers: the store
never inspects a component's contents, only its type identity.
-/

namespace Jest

/-- A Rust `TypeId`, modelled as a natural number. -/
abbrev TypeId := Nat

/-- A type-erased boxed component (`Box<dyn Any + Send>`): an opaque payload
`val` carrying the `TypeId` tag `tag` of the concrete type it was boxed at. -/
structure Dyn where
  tag : TypeId
  val : Nat
deriving DecidableEq

/-- Result of a `downcast::<T>()` followed by `unwrap()`: `.ok v` when the
stored tag matches the requested type, `.panic` when the `unwrap` would
panic on a failed downcast. -/
inductive CastResult where
  | ok (v : Nat)
  | panic
deriving DecidableEq

/-- Downcast a type-erased value to the type with identifier `tid`:
succeeds exactly when the stored tag matches. -/
def dynDowncast (tid : TypeId) (d : Dyn) : CastResult :=
  if d.tag = tid then .ok d.val else .panic

/-- The error type `errors::AlreadyExists` returned by `Entity::add` and
`EntityBuilder::add`. -/
inductive AddError where
  | alreadyExists
deriving DecidableEq

/-- The `Entity` struct: a component map keyed by type identity.  The Rust
field `components : HashMap<TypeId, Box<dyn Any + Send>>` is modelled as a
function; the keep-alive `_world : Arc<World>` field is omitted (it has no
observable behaviour). -/
structure Entity where
  components : TypeId → Option Dyn

/-- An entity with an empty component map. -/
def Entity.empty : Entity := ⟨fun _ => none⟩

/-- `Entity::add::<T>(component)`: inserts `Box::new(component)` under
`TypeId::of::<T>()` via the `Entry` API; the occupied branch returns
`AlreadyExists` and leaves the map untouched.  The tag of the stored `Dyn`
equals the key, because the same `T` names both in the source. -/
def Entity.add (e : Entity) (tid : TypeId) (v : Nat) :
    Except AddError Unit × Entity :=
  match e.components tid with
  | some _ => (.error .alreadyExists, e)
  | none =>
      (.ok (), ⟨fun k => if k = tid then some ⟨tid, v⟩ else e.components k⟩)

/-- `Entity::remove::<T>()`: `self.components.remove(&TypeId::of::<T>())`
followed by `.map(|c| *c.downcast::<T>().unwrap())`.  The outer `none` is
the key being absent; a `some .panic` would be the `unwrap` panicking. -/
def Entity.remove (e : Entity) (tid : TypeId) : Option CastResult × Entity :=
  match e.components tid with
  | none => (none, e)
  | some d =>
      (some (dynDowncast tid d),
       ⟨fun k => if k = tid then none else e.components k⟩)

/-- `Entity::get::<T>()`: `self.components.get(&TypeId::of::<T>())` followed
by `.map(|c| c.downcast_ref::<T>().unwrap())`. -/
def Entity.get (e : Entity) (tid : TypeId) : Option CastResult :=
  (e.components tid).map (dynDowncast tid)

/-- `Entity::get_mut::<T>()`: `self.components.get_mut(&TypeId::of::<T>())`
followed by `.map(|c| c.downcast_mut::<T>().unwrap())`.  Same lookup and
downcast as `get`; mutability is irrelevant to the lookup result. -/
def Entity.get_mut (e : Entity) (tid : TypeId) : Option CastResult :=
  (e.components tid).map (dynDowncast tid)

/-- The construction invariant of the component map: every value stored
under key `t` is a box whose concrete type is `t`. -/
def Entity.WF (e : Entity) : Prop :=
  ∀ t d, e.components t = some d → d.tag = t

/-- The `EntityBuilder` struct: accumulates a component map before a single
`World::insert`. -/
structure EntityBuilder where
  components : TypeId → Option Dyn

/-- `EntityBuilder::new()`: an empty builder. -/
def EntityBuilder.new : EntityBuilder := ⟨fun _ => none⟩

/-- `EntityBuilder::add::<T>(component)`: identical `Entry`-based duplicate
rejection to `Entity::add`. -/
def EntityBuilder.add (b : EntityBuilder) (tid : TypeId) (v : Nat) :
    Except AddError Unit × EntityBuilder :=
  match b.components tid with
  | some _ => (.error .alreadyExists, b)
  | none =>
      (.ok (), ⟨fun k => if k = tid then some ⟨tid, v⟩ else b.components k⟩)

/-- The `EntityId` key declared by `new_key_type!`: a slot index together
with a generation stamp. -/
structure EntityId where
  idx : Nat
  generation : Nat
deriving DecidableEq

/-- Modelled from the spec: one slot of the generational arena
(`slotmap::HopSlotMap`, an external crate whose source is not in this
repository).  A slot carries a generation counter and either an occupant or
nothing; the generation is bumped on every occupancy transition, so issued
ids (whose generation matches an occupied slot) have odd generations and
vacant slots even ones. -/
structure Slot where
  generation : Nat
  entity : Option Entity

/-- The `World` struct: the arena of lock-guarded entities.  The field
`entities : UnsafeCell<HopSlotMap<EntityId, RwLock<Entity>>>` is modelled
from the spec as a list of generation-stamped slots; the lock objects are
modelled separately by `lockFootprint`. -/
structure World where
  slots : List Slot

/-- `World::new()`: an empty world. -/
def World.new : World := ⟨[]⟩

/-- Modelled from the spec: the arena allocates a new-or-reused slot on
insert; this picks the first vacant slot, if any. -/
def findVacant : List Slot → Option Nat
  | [] => none
  | s :: rest =>
      if s.entity.isNone then some 0 else (findVacant rest).map (· + 1)

/-- `World::insert(entity)`: under the exclusive outer lock, stores the
entity in a new-or-reused slot and returns its id.  Modelled from the spec
for the arena part: a reused slot's generation is bumped (vacant even →
occupied odd) and a fresh slot starts at generation 1. -/
def World.insert (w : World) (e : Entity) : EntityId × World :=
  match findVacant w.slots with
  | some i =>
      let g := ((w.slots[i]?).map Slot.generation).getD 0 + 1
      (⟨i, g⟩, ⟨w.slots.set i ⟨g, some e⟩⟩)
  | none =>
      (⟨w.slots.length, 1⟩, ⟨w.slots ++ [⟨1, some e⟩]⟩)

/-- `World::remove(id)`: under the exclusive outer lock, looks up the slot
by id — rejecting unknown indices and mismatched generations with `none` —
and on a hit returns the entity, vacates the slot and bumps its
generation. -/
def World.remove (w : World) (id : EntityId) : Option Entity × World :=
  match w.slots[id.idx]? with
  | none => (none, w)
  | some s =>
      if s.generation = id.generation then
        match s.entity with
        | none => (none, w)
        | some e => (some e, ⟨w.slots.set id.idx ⟨s.generation + 1, none⟩⟩)
      else (none, w)

/-- `World::get(id)`: under the shared outer lock, looks up the slot by id;
an unknown index or a mismatched generation yields `none`.  The returned
`EntityRef` handle derefs to the entity, modelled as the entity itself;
the held guards are modelled by `lockFootprint`. -/
def World.get (w : World) (id : EntityId) : Option Entity :=
  match w.slots[id.idx]? with
  | none => none
  | some s => if s.generation = id.generation then s.entity else none

/-- `World::get_mut(id)`: same lookup as `get`; the returned `EntityMut`
handle differs only in the mode of the per-entity lock it holds. -/
def World.get_mut (w : World) (id : EntityId) : Option Entity :=
  match w.slots[id.idx]? with
  | none => none
  | some s => if s.generation = id.generation then s.entity else none

/-- `EntityBuilder::build(self, world)`: wraps the accumulated components
into an `Entity` and calls `World::insert`; the builder is consumed. -/
def EntityBuilder.build (b : EntityBuilder) (w : World) : EntityId × World :=
  w.insert ⟨b.components⟩

/-- The state-changing world operations, for reasoning about arbitrary
later interaction sequences (`get`/`get_mut` do not change the arena). -/
inductive Op where
  | insert (e : Entity)
  | remove (id : EntityId)

/-- Applies one state-changing operation to the world. -/
def World.applyOp (w : World) : Op → World
  | .insert e => (w.insert e).2
  | .remove id => (w.remove id).2

/-- Runs a sequence of state-changing operations. -/
def World.run (w : World) (ops : List Op) : World := ops.foldl World.applyOp w

/-- The ids issued by the `insert` operations of a run, in order. -/
def issuedIds : World → List Op → List EntityId
  | _, [] => []
  | w, .insert e :: ops => (w.insert e).1 :: issuedIds (w.insert e).2 ops
  | w, .remove id :: ops => issuedIds (w.remove id).2 ops

/-- Lock acquisition mode of a `tokio::sync::RwLock`. -/
inductive Mode where
  | shared
  | exclusive
deriving DecidableEq

/-- The locks of a `World`: the outer structural lock and one `RwLock` per
entity slot. -/
inductive LockId where
  | outer
  | entity (id : EntityId)
deriving DecidableEq

/-- The four public world operations, by the lock footprint they carry. -/
inductive WorldOp where
  | insert
  | remove (id : EntityId)
  | get (id : EntityId)
  | get_mut (id : EntityId)

/-- The locks each operation acquires (and, for `get`/`get_mut`, holds for
the lifetime of the returned handle), read off `src/world.rs`:
`insert` and `remove` call `self.outer.write()`; `get` calls
`self.outer.read()` then `inner.read()`; `get_mut` calls
`self.outer.read()` then `inner.write()`. -/
def lockFootprint : WorldOp → List (LockId × Mode)
  | .insert => [(.outer, .exclusive)]
  | .remove _ => [(.outer, .exclusive)]
  | .get id => [(.outer, .shared), (.entity id, .shared)]
  | .get_mut id => [(.outer, .shared), (.entity id, .exclusive)]

/-- Two lock footprints are compatible — both operations can hold all their
locks at the same time, so neither waits on the other — when every lock
they both touch is held by both in shared mode. -/
def Compatible (f g : List (LockId × Mode)) : Prop :=
  ∀ l m₁ m₂, (l, m₁) ∈ f → (l, m₂) ∈ g → m₁ = .shared ∧ m₂ = .shared

/-! ### Concrete fixtures used by witness theorems -/

/-- An entity holding one component: type 3, payload 42. -/
def entA : Entity := (Entity.empty.add 3 42).2

/-- A builder holding one component: type 3, payload 42. -/
def bldA : EntityBuilder := (EntityBuilder.new.add 3 42).2

/-! ### Entity-level claims -/

/-- C3.  `Entity::add::<T>(v)` returns `AlreadyExists` iff a component of
type `T` is already present; when it succeeds, a subsequent `get::<T>()`
returns the stored value `v`, and a second `add::<T>(_)` fails with
`AlreadyExists`. -/
theorem entity_add_contract (e : Entity) (t : TypeId) (v w : Nat) :
    ((e.add t v).1 = .error .alreadyExists ↔ (e.components t).isSome = true) ∧
    ((e.add t v).1 = .ok () →
      (e.add t v).2.get t = some (.ok v) ∧
      ((e.add t v).2.add t w).1 = .error .alreadyExists) := by
  cases h : e.components t <;>
    simp [Entity.add, Entity.get, dynDowncast, h]

/-- Witness for C3 at the empty entity: the add succeeds and its
consequences hold. -/
theorem entity_add_contract_witness :
    (Entity.empty.add 3 42).2.get 3 = some (.ok 42) ∧
    ((Entity.empty.add 3 42).2.add 3 7).1 = .error .alreadyExists :=
  (entity_add_contract Entity.empty 3 42 7).2 rfl

/-- C4.  `Entity::remove::<T>()` after a successful `add::<T>(v)` returns
the value `v` (outer `some`: the key was present; inner `.ok`: the downcast
succeeded) and leaves `get::<T>()` returning `none`; `remove::<T>()` with
no component of type `T` present returns `none` rather than an error. -/
theorem entity_remove_round_trip (e : Entity) (t : TypeId) (v : Nat) :
    ((e.add t v).1 = .ok () →
      ((e.add t v).2.remove t).1 = some (.ok v) ∧
      ((e.add t v).2.remove t).2.get t = none) ∧
    (e.get t = none → (e.remove t).1 = none) := by
  cases h : e.components t <;>
    simp [Entity.add, Entity.remove, Entity.get, dynDowncast, h]

/-- Witness for C4 at the empty entity: both hypotheses discharged at
concrete inputs. -/
theorem entity_remove_round_trip_witness :
    (((Entity.empty.add 3 42).2.remove 3).1 = some (.ok 42) ∧
      ((Entity.empty.add 3 42).2.remove 3).2.get 3 = none) ∧
    (Entity.empty.remove 5).1 = none :=
  ⟨(entity_remove_round_trip Entity.empty 3 42).1 rfl,
   (entity_remove_round_trip Entity.empty 5 0).2 rfl⟩

/-- C6.  Frame property: for `u ≠ t`, `add` of type `t` (successful or not)
and `remove` of type `t` leave the component of type `u` exactly as it was;
a successful add's only effect is storing the value under `t`. -/
theorem entity_component_frame (e : Entity) (t u : TypeId) (v : Nat)
    (h : t ≠ u) :
    (e.add t v).2.components u = e.components u ∧
    (e.remove t).2.components u = e.components u ∧
    (e.add t v).2.get u = e.get u ∧
    (e.remove t).2.get u = e.get u ∧
    ((e.add t v).1 = .ok () → (e.add t v).2.components t = some ⟨t, v⟩) := by
  have hne : u ≠ t := fun hut => h hut.symm
  cases hc : e.components t <;>
    simp [Entity.add, Entity.remove, Entity.get, hc, hne]

/-- Witness for C6 at concrete types 3 ≠ 5 on `entA`. -/
theorem entity_component_frame_witness :
    ((entA.add 3 7).2.components 5 = entA.components 5 ∧
      (entA.remove 3).2.components 5 = entA.components 5 ∧
      (entA.add 3 7).2.get 5 = entA.get 5 ∧
      (entA.remove 3).2.get 5 = entA.get 5 ∧
      ((entA.add 3 7).1 = .ok () → (entA.add 3 7).2.components 3 = some ⟨3, 7⟩)) ∧
    (3 : TypeId) ≠ 5 :=
  ⟨entity_component_frame entA 3 5 7 (by decide), by decide⟩

/-- C9.  Atomicity of `add` on failure: when `Entity::add` or
`EntityBuilder::add` returns `AlreadyExists`, the component map is left
completely unchanged, and in particular the previously stored component of
that type is still returned by a subsequent `get`. -/
theorem add_atomic_on_failure (e : Entity) (b : EntityBuilder) (t : TypeId)
    (v : Nat) :
    ((e.add t v).1 = .error .alreadyExists →
      (e.add t v).2 = e ∧ (e.add t v).2.get t = e.get t) ∧
    ((b.add t v).1 = .error .alreadyExists → (b.add t v).2 = b) := by
  constructor
  · intro hfail
    cases h : e.components t with
    | none => simp [Entity.add, h] at hfail
    | some d => simp [Entity.add, h]
  · intro hfail
    cases h : b.components t with
    | none => simp [EntityBuilder.add, h] at hfail
    | some d => simp [EntityBuilder.add, h]

/-- Witness for C9 at an entity and builder that already hold a component
of type 3. -/
theorem add_atomic_on_failure_witness :
    ((entA.add 3 7).2 = entA ∧ (entA.add 3 7).2.get 3 = entA.get 3) ∧
    (bldA.add 3 7).2 = bldA :=
  ⟨(add_atomic_on_failure entA bldA 3 7).1 rfl,
   (add_atomic_on_failure entA bldA 3 7).2 rfl⟩

/-- C7.  Downcast safety: the construction invariant `Entity.WF` (every
value stored under key `t` is tagged `t`) holds for a fresh entity and is
preserved by `add` and `remove`; under it, the internal downcast-`unwrap`
in `get`, `get_mut` and `remove` never reaches the panic. -/
theorem entity_downcast_safety (e : Entity) (h : e.WF) (t : TypeId)
    (v : Nat) :
    Entity.empty.WF ∧
    (e.add t v).2.WF ∧
    (e.remove t).2.WF ∧
    e.get t ≠ some .panic ∧
    e.get_mut t ≠ some .panic ∧
    (e.remove t).1 ≠ some .panic := by
  refine ⟨?_, ?_, ?_, ?_, ?_, ?_⟩
  · intro s d hd
    simp [Entity.empty] at hd
  · intro s d hd
    cases hc : e.components t with
    | some d0 =>
        simp [Entity.add, hc] at hd
        exact h s d hd
    | none =>
        simp [Entity.add, hc] at hd
        by_cases hst : s = t
        · subst hst
          rw [if_pos rfl] at hd
          injection hd with hd
          rw [← hd]
        · rw [if_neg hst] at hd
          exact h s d hd
  · intro s d hd
    cases hc : e.components t with
    | none =>
        simp [Entity.remove, hc] at hd
        exact h s d hd
    | some d0 =>
        simp [Entity.remove, hc] at hd
        exact h s d hd.2
  · cases hc : e.components t with
    | none => simp [Entity.get, hc]
    | some d => simp [Entity.get, hc, dynDowncast, h t d hc]
  · cases hc : e.components t with
    | none => simp [Entity.get_mut, hc]
    | some d => simp [Entity.get_mut, hc, dynDowncast, h t d hc]
  · cases hc : e.components t with
    | none => simp [Entity.remove, hc]
    | some d => simp [Entity.remove, hc, dynDowncast, h t d hc]

/-- Witness for C7 at the empty entity, whose well-formedness is immediate. -/
theorem entity_downcast_safety_witness :
    Entity.empty.get 3 ≠ some .panic ∧
    Entity.empty.get_mut 3 ≠ some .panic ∧
    (Entity.empty.remove 3).1 ≠ some .panic :=
  let h := entity_downcast_safety Entity.empty
    (fun _ _ hd => Option.noConfusion hd) 3 0
  ⟨h.2.2.2.1, h.2.2.2.2.1, h.2.2.2.2.2⟩

/-! ### World-level helper lemmas -/

theorem findVacant_spec (l : List Slot) : ∀ i, findVacant l = some i →
    ∃ s, l[i]? = some s ∧ s.entity = none := by
  induction l with
  | nil => intro i h; simp [findVacant] at h
  | cons s rest ih =>
      intro i h
      by_cases hv : s.entity = none
      · refine ⟨s, ?_, hv⟩
        simp [findVacant, hv] at h
        simp [← h]
      · simp [findVacant, Option.isNone_iff_eq_none, hv] at h
        obtain ⟨j, hj, rfl⟩ := h
        obtain ⟨s', hs', hv'⟩ := ih j hj
        exact ⟨s', by simpa using hs', hv'⟩

/-- Case analysis on `World::insert`: either it reuses the first vacant
slot, bumping that slot's generation, or it appends a fresh slot of
generation 1. -/
theorem insert_cases (w : World) (e : Entity) :
    (∃ i s, findVacant w.slots = some i ∧ w.slots[i]? = some s ∧
      s.entity = none ∧ (w.insert e).1 = ⟨i, s.generation + 1⟩ ∧
      (w.insert e).2.slots = w.slots.set i ⟨s.generation + 1, some e⟩) ∨
    (findVacant w.slots = none ∧ (w.insert e).1 = ⟨w.slots.length, 1⟩ ∧
      (w.insert e).2.slots = w.slots ++ [⟨1, some e⟩]) := by
  cases hfv : findVacant w.slots with
  | none => exact .inr ⟨rfl, by simp [World.insert, hfv], by simp [World.insert, hfv]⟩
  | some i =>
      obtain ⟨s, hs, hv⟩ := findVacant_spec w.slots i hfv
      exact .inl ⟨i, s, rfl, hs, hv,
        by simp [World.insert, hfv, hs], by simp [World.insert, hfv, hs]⟩

/-- Inserting and then looking up the returned id yields the inserted
entity. -/
theorem get_insert (w : World) (e : Entity) :
    (w.insert e).2.get (w.insert e).1 = some e := by
  rcases insert_cases w e with ⟨i, s, hfv, hs, hv, hid, hsl⟩ | ⟨hfv, hid, hsl⟩
  · have hlen : i < w.slots.length := (List.getElem?_eq_some.mp hs).1
    simp [World.get, hid, hsl, List.getElem?_set, hlen]
  · simp [World.get, hid, hsl, List.getElem?_concat_length]

/-- An id is stale in a world when its slot exists but has moved past the
id's generation.  A stale id can never match again, because generations
only grow. -/
def StaleAt (w : World) (id : EntityId) : Prop :=
  ∃ s, w.slots[id.idx]? = some s ∧ id.generation < s.generation

theorem remove_stale {w : World} {id : EntityId} {e : Entity}
    (h : (w.remove id).1 = some e) : StaleAt (w.remove id).2 id := by
  cases hs : w.slots[id.idx]? with
  | none => simp [World.remove, hs] at h
  | some s =>
      by_cases hg : s.generation = id.generation
      · cases he : s.entity with
        | none => simp [World.remove, hs, hg, he] at h
        | some e2 =>
            have hlen : id.idx < w.slots.length :=
              (List.getElem?_eq_some.mp hs).1
            refine ⟨⟨s.generation + 1, none⟩, ?_, ?_⟩
            · simp [World.remove, hs, hg, he, List.getElem?_set, hlen]
            · show id.generation < s.generation + 1
              omega
      · simp [World.remove, hs, hg] at h

theorem StaleAt.insert_pres {w : World} {id : EntityId} (h : StaleAt w id)
    (e : Entity) : StaleAt (w.insert e).2 id ∧ (w.insert e).1 ≠ id := by
  obtain ⟨s0, hs0, hg0⟩ := h
  rcases insert_cases w e with ⟨i, s, hfv, hs, hv, hid, hsl⟩ | ⟨hfv, hid, hsl⟩
  · have hlen : i < w.slots.length := (List.getElem?_eq_some.mp hs).1
    by_cases hik : i = id.idx
    · subst hik
      have hss : s = s0 := by rw [hs0] at hs; exact (Option.some.inj hs).symm
      subst hss
      constructor
      · refine ⟨⟨s.generation + 1, some e⟩,
          by simp [hsl, List.getElem?_set, hlen], ?_⟩
        show id.generation < s.generation + 1
        omega
      · rw [hid]
        intro heq
        have : s.generation + 1 = id.generation :=
          congrArg EntityId.generation heq
        omega
    · constructor
      · exact ⟨s0, by simp [hsl, List.getElem?_set, hik, hs0], hg0⟩
      · rw [hid]
        intro heq
        exact hik (congrArg EntityId.idx heq)
  · have hlen : id.idx < w.slots.length := (List.getElem?_eq_some.mp hs0).1
    constructor
    · exact ⟨s0, by simp [hsl, List.getElem?_append, hlen, hs0], hg0⟩
    · rw [hid]
      intro heq
      have : w.slots.length = id.idx := congrArg EntityId.idx heq
      omega

theorem StaleAt.remove_pres {w : World} {id : EntityId} (h : StaleAt w id)
    (id2 : EntityId) : StaleAt (w.remove id2).2 id := by
  obtain ⟨s0, hs0, hg0⟩ := h
  cases hs : w.slots[id2.idx]? with
  | none => exact ⟨s0, by simp [World.remove, hs, hs0], hg0⟩
  | some s =>
      by_cases hg : s.generation = id2.generation
      · cases he : s.entity with
        | none => exact ⟨s0, by simp [World.remove, hs, hg, he, hs0], hg0⟩
        | some e2 =>
            have hlen : id2.idx < w.slots.length :=
              (List.getElem?_eq_some.mp hs).1
            by_cases hik : id2.idx = id.idx
            · have hs' := hs
              rw [hik, hs0] at hs'
              have hss : s = s0 := (Option.some.inj hs').symm
              have hgen : s.generation = s0.generation := by rw [hss]
              have hlen' : id.idx < w.slots.length := by omega
              refine ⟨⟨s.generation + 1, none⟩, ?_, ?_⟩
              · have hred : (w.remove id2).2.slots
                    = w.slots.set id2.idx ⟨s.generation + 1, none⟩ := by
                  simp [World.remove, hs, hg, he]
                rw [hred, List.getElem?_set, if_pos hik, if_pos hlen]
              · show id.generation < s.generation + 1
                omega
            · refine ⟨s0, ?_, hg0⟩
              simp [World.remove, hs, hg, he, List.getElem?_set, hik, hs0]
      · exact ⟨s0, by simp [World.remove, hs, hg, hs0], hg0⟩

theorem StaleAt.lookup_none {w : World} {id : EntityId} (h : StaleAt w id) :
    w.get id = none ∧ w.get_mut id = none ∧ (w.remove id).1 = none := by
  obtain ⟨s0, hs0, hg0⟩ := h
  have hne : ¬ s0.generation = id.generation := by omega
  refine ⟨?_, ?_, ?_⟩ <;>
    simp [World.get, World.get_mut, World.remove, hs0, hne]

theorem StaleAt.run_pres {w : World} {id : EntityId} (h : StaleAt w id)
    (ops : List Op) :
    StaleAt (w.run ops) id ∧ ∀ id2 ∈ issuedIds w ops, id2 ≠ id := by
  induction ops generalizing w with
  | nil => exact ⟨h, by simp [issuedIds]⟩
  | cons op ops ih =>
      cases op with
      | insert e =>
          have hi := StaleAt.insert_pres h e
          have hr := ih hi.1
          refine ⟨hr.1, ?_⟩
          intro id2 hid2
          simp only [issuedIds, List.mem_cons] at hid2
          rcases hid2 with rfl | hmem
          · exact hi.2
          · exact hr.2 id2 hmem
      | remove id3 =>
          have hi := StaleAt.remove_pres h id3
          have hr := ih hi
          exact ⟨hr.1, fun id2 hid2 => hr.2 id2 hid2⟩

/-- The footprints of `get_mut` on two distinct entities are compatible:
they share only the outer lock, and both hold it in shared mode. -/
theorem get_mut_compat {i j : EntityId} (hij : i ≠ j) :
    Compatible (lockFootprint (.get_mut i)) (lockFootprint (.get_mut j)) := by
  intro l m₁ m₂ h₁ h₂
  simp only [lockFootprint, List.mem_cons, List.mem_singleton,
    Prod.mk.injEq, List.not_mem_nil, or_false] at h₁ h₂
  rcases h₁ with ⟨rfl, rfl⟩ | ⟨rfl, rfl⟩
  · rcases h₂ with ⟨-, rfl⟩ | ⟨h, -⟩
    · exact ⟨rfl, rfl⟩
    · exact LockId.noConfusion h
  · rcases h₂ with ⟨h, -⟩ | ⟨h, -⟩
    · exact LockId.noConfusion h
    · exact absurd (LockId.entity.inj h) hij

/-! ### World-level fixtures for witnesses -/

/-- A world holding `entA` in slot 0. -/
def wA : World := (World.new.insert entA).2

/-- The id issued for `entA` in `wA`. -/
def idA : EntityId := (World.new.insert entA).1

/-! ### World-level claims -/

/-- C1.  Generational safety: once `World::remove(id)` has returned the
entity, every subsequent `get(id)`, `get_mut(id)` or `remove(id)` — after
any further interleaving of inserts and removes, including ones that reuse
the freed slot — returns `none`; every id issued by a later insert differs
from the removed id; and a lookup with an unknown id (index past the
populated range) returns `none`.  All lookup operations are total Lean
functions, so no lookup can fault. -/
theorem generational_safety (w : World) (id : EntityId) (e : Entity)
    (hrem : (w.remove id).1 = some e) (ops : List Op) :
    (((w.remove id).2.run ops).get id = none) ∧
    (((w.remove id).2.run ops).get_mut id = none) ∧
    ((((w.remove id).2.run ops).remove id).1 = none) ∧
    (∀ id2 ∈ issuedIds (w.remove id).2 ops, id2 ≠ id) ∧
    (∀ j : EntityId, w.slots[j.idx]? = none → w.get j = none) := by
  have h0 : StaleAt (w.remove id).2 id := remove_stale hrem
  have hr := StaleAt.run_pres h0 ops
  have hg := StaleAt.lookup_none hr.1
  exact ⟨hg.1, hg.2.1, hg.2.2, hr.2, fun j hj => by simp [World.get, hj]⟩

/-- Witness for C1: remove the only entity of `wA`, then reinsert into the
freed slot; the stale id still misses everywhere. -/
theorem generational_safety_witness :
    ((wA.remove idA).2.run [Op.insert Entity.empty]).get idA = none ∧
    ((wA.remove idA).2.run [Op.insert Entity.empty]).get_mut idA = none ∧
    (((wA.remove idA).2.run [Op.insert Entity.empty]).remove idA).1 = none ∧
    (∀ id2 ∈ issuedIds (wA.remove idA).2 [Op.insert Entity.empty],
      id2 ≠ idA) ∧
    (∀ j : EntityId, wA.slots[j.idx]? = none → wA.get j = none) :=
  generational_safety wA idA entA rfl [Op.insert Entity.empty]

/-- C5.  World round-trip: `get` of the id returned by `insert` yields the
inserted entity (its component map intact), and `remove` of an occupied id
returns the stored entity intact. -/
theorem world_round_trip (w : World) (e : Entity) (id : EntityId) :
    ((w.insert e).2.get (w.insert e).1 = some e) ∧
    (w.get id = some e → (w.remove id).1 = some e) := by
  refine ⟨get_insert w e, fun hg => ?_⟩
  cases hs : w.slots[id.idx]? with
  | none => simp [World.get, hs] at hg
  | some s =>
      by_cases hgen : s.generation = id.generation
      · simp [World.get, hs, hgen] at hg
        simp [World.remove, hs, hgen, hg]
      · simp [World.get, hs, hgen] at hg

/-- Witness for C5 at `wA`, whose id `idA` is occupied by `entA`. -/
theorem world_round_trip_witness :
    ((wA.insert entA).2.get (wA.insert entA).1 = some entA) ∧
    (wA.remove idA).1 = some entA :=
  ⟨(world_round_trip wA entA idA).1, (world_round_trip wA entA idA).2 rfl⟩

/-- C10.  World-level frame property: with `b` occupied and `a ≠ b`,
`insert` of a new entity and `remove(a)` leave the entity under `b`
unchanged and `b` still valid; `get`/`get_mut` are read-only by
construction (their embeddings return no world state), and in particular
`get_mut(b)` still sees the same entity. -/
theorem world_slot_frame (w : World) (a b : EntityId) (e eB : Entity)
    (hab : a ≠ b) (hb : w.get b = some eB) :
    (w.insert e).2.get b = some eB ∧
    (w.remove a).2.get b = some eB ∧
    w.get_mut b = some eB := by
  cases hsb : w.slots[b.idx]? with
  | none => simp [World.get, hsb] at hb
  | some sb =>
      by_cases hgb : sb.generation = b.generation
      · simp only [World.get, hsb, if_pos hgb] at hb
        refine ⟨?_, ?_, ?_⟩
        · rcases insert_cases w e with ⟨i, s, hfv, hs, hv, hid, hsl⟩ |
            ⟨hfv, hid, hsl⟩
          · have hib : ¬ i = b.idx := by
              intro hibeq
              rw [hibeq, hsb] at hs
              have : sb = s := Option.some.inj hs
              rw [← this, hb] at hv
              exact Option.noConfusion hv
            simp [World.get, hsl, List.getElem?_set, hib, hsb, hgb, hb]
          · have hlenb : b.idx < w.slots.length :=
              (List.getElem?_eq_some.mp hsb).1
            simp [World.get, hsl, List.getElem?_append, hlenb, hsb, hgb, hb]
        · cases hsa : w.slots[a.idx]? with
          | none => simp [World.remove, hsa, World.get, hsb, hgb, hb]
          | some sa =>
              by_cases hga : sa.generation = a.generation
              · cases hea : sa.entity with
                | none =>
                    simp [World.remove, hsa, hga, hea, World.get, hsb, hgb,
                      hb]
                | some e2 =>
                    by_cases hik : a.idx = b.idx
                    · exfalso
                      apply hab
                      have hsa' := hsa
                      rw [hik, hsb] at hsa'
                      have hss : sa = sb := (Option.some.inj hsa').symm
                      rw [hss] at hga
                      have hgen : a.generation = b.generation := by omega
                      have : (⟨a.idx, a.generation⟩ : EntityId)
                          = ⟨b.idx, b.generation⟩ := by rw [hik, hgen]
                      exact this
                    · have hred : (w.remove a).2.slots
                          = w.slots.set a.idx ⟨sa.generation + 1, none⟩ := by
                        simp [World.remove, hsa, hga, hea]
                      simp [World.get, hred, List.getElem?_set, hik, hsb,
                        hgb, hb]
              · simp [World.remove, hsa, hga, World.get, hsb, hgb, hb]
        · show w.get b = some eB
          simp [World.get, hsb, hgb, hb]
      · simp [World.get, hsb, hgb] at hb

/-- Witness for C10: inserting a second entity into `wA`, and removing a
stale id, both leave `idA` intact. -/
theorem world_slot_frame_witness :
    ((⟨0, 0⟩ : EntityId) ≠ idA ∧ wA.get idA = some entA) ∧
    ((wA.insert Entity.empty).2.get idA = some entA ∧
      (wA.remove ⟨0, 0⟩).2.get idA = some entA ∧
      wA.get_mut idA = some entA) :=
  ⟨⟨by decide, rfl⟩, world_slot_frame wA ⟨0, 0⟩ idA Entity.empty entA
    (by decide) rfl⟩

/-- C8.  Builder contract: `EntityBuilder::add` rejects an already
accumulated component type with `AlreadyExists`, agreeing with
`Entity::add` on the same map; `build(world)` wraps exactly the accumulated
components into an `Entity` and calls `World::insert` (consuming the
builder, which Rust's affine typing enforces), so `get` of the returned id
yields an entity holding precisely the accumulated components. -/
theorem builder_contract (b : EntityBuilder) (w : World) (t : TypeId)
    (v : Nat) :
    ((b.add t v).1 = .error .alreadyExists ↔
      (b.components t).isSome = true) ∧
    ((b.add t v).1 = ((Entity.mk b.components).add t v).1) ∧
    ((b.add t v).2.components = ((Entity.mk b.components).add t v).2.components) ∧
    (b.build w = w.insert ⟨b.components⟩) ∧
    ((b.build w).2.get (b.build w).1 = some ⟨b.components⟩) := by
  refine ⟨?_, ?_, ?_, rfl, get_insert w ⟨b.components⟩⟩
  · cases hc : b.components t <;> simp [EntityBuilder.add, hc]
  · cases hc : b.components t <;> simp [EntityBuilder.add, Entity.add, hc]
  · cases hc : b.components t <;> simp [EntityBuilder.add, Entity.add, hc]

/-- C2.  Two-level locking protocol, modelled by per-operation lock
footprints read off `src/world.rs`: `insert`/`remove` take the outer lock
exclusively; `get`/`get_mut` take it only shared plus the target entity's
lock shared/exclusively.  Consequently the footprints of `get_mut` on any
pairwise distinct entities are mutually compatible (none waits on another),
while two `get_mut` of the same entity — and any operation against an
`insert`/`remove` — have incompatible footprints, hence are serialized by
the locks. -/
theorem two_level_locking (i j : EntityId) (hij : i ≠ j)
    (ids : List EntityId) :
    ((LockId.outer, Mode.exclusive) ∈ lockFootprint .insert ∧
      (LockId.outer, Mode.exclusive) ∈ lockFootprint (.remove i)) ∧
    ((LockId.outer, Mode.shared) ∈ lockFootprint (.get i) ∧
      (LockId.entity i, Mode.shared) ∈ lockFootprint (.get i) ∧
      (LockId.outer, Mode.shared) ∈ lockFootprint (.get_mut i) ∧
      (LockId.entity i, Mode.exclusive) ∈ lockFootprint (.get_mut i)) ∧
    Compatible (lockFootprint (.get_mut i)) (lockFootprint (.get_mut j)) ∧
    (ids.Pairwise (· ≠ ·) → ids.Pairwise fun a b =>
      Compatible (lockFootprint (.get_mut a)) (lockFootprint (.get_mut b))) ∧
    ¬ Compatible (lockFootprint (.get_mut i)) (lockFootprint (.get_mut i)) ∧
    ¬ Compatible (lockFootprint .insert) (lockFootprint (.get_mut i)) ∧
    ¬ Compatible (lockFootprint (.remove j)) (lockFootprint (.get_mut i)) := by
  refine ⟨⟨by simp [lockFootprint], by simp [lockFootprint]⟩,
    ⟨by simp [lockFootprint], by simp [lockFootprint],
      by simp [lockFootprint], by simp [lockFootprint]⟩,
    get_mut_compat hij,
    fun hpw => hpw.imp fun hab => get_mut_compat hab, ?_, ?_, ?_⟩
  · intro hcomp
    have h := hcomp (.entity i) .exclusive .exclusive
      (by simp [lockFootprint]) (by simp [lockFootprint])
    exact Mode.noConfusion h.1
  · intro hcomp
    have h := hcomp .outer .exclusive .shared
      (by simp [lockFootprint]) (by simp [lockFootprint])
    exact Mode.noConfusion h.1
  · intro hcomp
    have h := hcomp .outer .exclusive .shared
      (by simp [lockFootprint]) (by simp [lockFootprint])
    exact Mode.noConfusion h.1

/-- Witness for C2 at two concrete distinct ids and a concrete id list. -/
theorem two_level_locking_witness :
    ((⟨0, 1⟩ : EntityId) ≠ ⟨1, 1⟩) ∧
    Compatible (lockFootprint (.get_mut ⟨0, 1⟩))
      (lockFootprint (.get_mut ⟨1, 1⟩)) ∧
    (([⟨0, 1⟩, ⟨1, 1⟩] : List EntityId).Pairwise fun a b =>
      Compatible (lockFootprint (.get_mut a)) (lockFootprint (.get_mut b))) :=
  ⟨by decide,
   (two_level_locking ⟨0, 1⟩ ⟨1, 1⟩ (by decide) [⟨0, 1⟩, ⟨1, 1⟩]).2.2.1,
   (two_level_locking ⟨0, 1⟩ ⟨1, 1⟩ (by decide)
     [⟨0, 1⟩, ⟨1, 1⟩]).2.2.2.1 (by decide)⟩

end Jest
